import Mathlib

/-!
Verification development for the dataset profiling and chart-recommendation
engine of the voice-ai-data-analyst repository.

The embedding models tabular cell values, the correlation matrix component
(`CorrelationMatrix.correlations`), the per-column statistics and data-quality
indicators of `StatisticalInsights`, and the chart data transformer /
recommendation logic of `DataVisualizer.jsx` (`pieComputed`, `chartData`,
`isNumericCol`, `canRenderSelected`, `recommendedByType`, and the
auto-select-default effect).

Numbers are modelled as exact rationals.  The JavaScript source computes with
IEEE doubles; every property settled here (fallback selection, NaN production,
row pairing, sort/collapse structure, index conventions, sum conservation) is
independent of rounding, and the degenerate cases at issue (variance exactly 0,
division 0/0) arise from exact cancellation that IEEE arithmetic also performs
exactly on the inputs used.
-/

/-- A single table cell as the JavaScript code can observe it.
`undef` is an absent key / `undefined` (JS `Number(undefined)` is NaN);
`null` is a JSON null (JS `Number(null)` is `0`);
`strVal s v` is a string cell `s` together with the finite number JS
`Number(s)` parses it to (`none` when `Number(s)` is NaN or infinite; e.g.
`Number("")` is `0`, `Number("x")` is NaN);
`num q` is a numeric cell. -/
inductive Cell where
  | undef : Cell
  | null : Cell
  | strVal : String → Option ℚ → Cell
  | num : ℚ → Cell
deriving DecidableEq

/-- The finite numeric value JS `Number(cell)` yields, `none` when the result
is NaN or ±Infinity — exactly the values kept by
`.filter(val => !isNaN(val) && isFinite(val))` in the source. -/
def Cell.toNum : Cell → Option ℚ
  | .undef => none
  | .null => some 0
  | .strVal _ v => v
  | .num q => some q

/-- The presence test of StatisticalInsights (part_008 line 127):
`row[column] !== null && row[column] !== undefined && row[column] !== ''`. -/
def Cell.isPresent : Cell → Bool
  | .undef => false
  | .null => false
  | .strVal s _ => s ≠ ""
  | .num _ => true

/-- The spec's missingness test (§4.1): a value is missing if it is null,
undefined, or an empty string after trimming — a string trims to empty
exactly when every character is whitespace (which also covers the empty
string itself). -/
def Cell.isNonMissingSpec : Cell → Bool
  | .undef => false
  | .null => false
  | .strVal s _ => ¬ s.toList.all Char.isWhitespace
  | .num _ => true

/-- A row is a finite mapping from column names to cells, in column order. -/
abbrev Row := List (String × Cell)

/-- JS property access `row[col]`: the first cell stored for `col`, or
`undefined` when the key is absent. -/
def Row.get : Row → String → Cell
  | [], _ => Cell.undef
  | p :: rest, col => if p.1 = col then p.2 else Row.get rest col

/-! ## Correlation engine (src/unnamed/part_007, `CorrelationMatrix.correlations`) -/

/-- Lines 34-35: `data.map(row => Number(row[col])).filter(v => !isNaN(v) && isFinite(v))`
— each column's valid finite values collected independently, in row order. -/
def validValues (data : List Row) (col : String) : List ℚ :=
  (data.map (fun r => (Row.get r col).toNum)).filterMap id

/-- `values.reduce((a, b) => a + b, 0) / values.length` (lines 43-44).  For an
empty list JS produces `0/0 = NaN`; the model yields `0` (Lean division by
zero), which never reaches an output because the variance product is then `0`
and the matrix entry is classified NaN below, as in JS. -/
def qmean (l : List ℚ) : ℚ := l.sum / (l.length : ℚ)

/-- Line 46-47: `values.reduce((a, b) => a + Math.pow(b - mean, 2), 0)` —
the pairwise sum of squared deviations of one column's valid values. -/
def colVariance (data : List Row) (col : String) : ℚ :=
  ((validValues data col).map (fun x => (x - qmean (validValues data col)) ^ 2)).sum

/-- Lines 49-50: `values1.reduce((a, b, i) => a + ((b - mean1) * (values2[i] - mean2)), 0)`
— covariance over the two independently filtered value lists, paired by
filtered index (the lists have equal length when this is evaluated). -/
def covar (data : List Row) (c1 c2 : String) : ℚ :=
  (((validValues data c1).zip (validValues data c2)).map
    (fun p => (p.1 - qmean (validValues data c1)) * (p.2 - qmean (validValues data c2)))).sum

/-- One entry of the correlation matrix, kept symbolic because the JS value
`covariance / Math.sqrt(variance1 * variance2)` involves a square root:
`one` is the literal `1` written on the diagonal (line 30); `zero` is the
literal `0` fallback for a length mismatch (line 38); `pearson cov varProd`
denotes the JS number `cov / Math.sqrt(varProd)` (lines 52-53). -/
inductive CorrEntry where
  | one : CorrEntry
  | zero : CorrEntry
  | pearson : ℚ → ℚ → CorrEntry
deriving DecidableEq

/-- Whether the JS value of the entry is NaN: `cov / Math.sqrt(varProd)` is
NaN exactly when `cov = 0` and `varProd = 0` (the variance product is a sum of
squares times a sum of squares, hence never negative). -/
def CorrEntry.isNaN : CorrEntry → Bool
  | .pearson cov varProd => cov = 0 ∧ varProd = 0
  | _ => false

/-- The matrix entry computed for an ordered column pair (lines 29-53). -/
def corrEntry (data : List Row) (c1 c2 : String) : CorrEntry :=
  if c1 = c2 then .one
  else if (validValues data c1).length ≠ (validValues data c2).length then .zero
  else .pearson (covar data c1 c2) (colVariance data c1 * colVariance data c2)

/-- The whole `correlations` memo (lines 6-57): `null` for an empty dataset or
fewer than two numeric columns, otherwise the nested keyed matrix. -/
def correlations (data : List Row) (numericColumns : List String) :
    Option (List (String × List (String × CorrEntry))) :=
  if data.isEmpty then none
  else if numericColumns.length < 2 then none
  else some (numericColumns.map (fun c1 =>
    (c1, numericColumns.map (fun c2 => (c2, corrEntry data c1 c2)))))

/-- The value pairs obtained by row-wise pairwise deletion, following the
spec's words (§4.3): restrict to rows where both columns have valid finite
numeric values. -/
def pairedValues (data : List Row) (c1 c2 : String) : List (ℚ × ℚ) :=
  data.filterMap (fun r =>
    match (Row.get r c1).toNum, (Row.get r c2).toNum with
    | some x, some y => some (x, y)
    | _, _ => none)

/-- The correlation entry as the spec describes it (§4.3), built on row-wise
pairwise deletion with the explicit `0` fallback for fewer than 2 paired
samples or zero pairwise variance.  Used only to compare the spec's claims
against `corrEntry`. -/
def corrSpec (data : List Row) (c1 c2 : String) : CorrEntry :=
  if c1 = c2 then .one
  else
    let ps := pairedValues data c1 c2
    let m1 := qmean (ps.map Prod.fst)
    let m2 := qmean (ps.map Prod.snd)
    let var1 := (ps.map (fun p => (p.1 - m1) ^ 2)).sum
    let var2 := (ps.map (fun p => (p.2 - m2) ^ 2)).sum
    if ps.length < 2 ∨ var1 = 0 ∨ var2 = 0 then .zero
    else .pearson ((ps.map (fun p => (p.1 - m1) * (p.2 - m2))).sum) (var1 * var2)

/-- The spec's zero-variance scenario: column `a` is `[1,1,1]`, column `b` is
`[2,3,4]`. -/
def dataZeroVar : List Row :=
  [[("a", Cell.num 1), ("b", Cell.num 2)],
   [("a", Cell.num 1), ("b", Cell.num 3)],
   [("a", Cell.num 1), ("b", Cell.num 4)]]

/-! ## Column statistics and quality indicators (src/unnamed/part_008, `StatisticalInsights`) -/

/-- Ascending sort, JS `[...values].sort((a, b) => a - b)`.  For a list of
rationals the sorted output is unique, so the choice of algorithm is
irrelevant. -/
def sortAsc (l : List ℚ) : List ℚ := l.insertionSort (· ≤ ·)

/-- The per-column numeric statistics of `getColumnStats` (lines 36-62).
`stdDev` is omitted: it is an irrational square root and no property here
concerns it.  The value list (line 37) is `data.map(row =>
Number(row[columnName])).filter(val => !isNaN(val))`; the embedding reuses
`validValues`, which additionally drops ±Infinity — no finite-data property
is affected. -/
structure ColStats where
  mean : ℚ
  median : ℚ
  minV : ℚ
  maxV : ℚ
  q1 : ℚ
  q3 : ℚ
deriving DecidableEq

/-- `getColumnStats` (part_008 lines 36-62): `null` when no value parses,
otherwise median/Q1/Q3 read from the sorted list at the floored index
positions `n/2`, `n/4`, `3n/4`. -/
def getColumnStats (data : List Row) (col : String) : Option ColStats :=
  let values := validValues data col
  if values.length = 0 then none
  else
    let sorted := sortAsc values
    some { mean := qmean values
           median := sorted.getD (values.length / 2) 0
           minV := sorted.getD 0 0
           maxV := sorted.getD (values.length - 1) 0
           q1 := sorted.getD (values.length / 4) 0
           q3 := sorted.getD (3 * values.length / 4) 0 }

/-- The spec's median ("middle of sorted values, lower-of-two for even
counts"), stated in the spec's words for comparison with `getColumnStats`:
the sorted value at index `(n-1)/2`. -/
def lowerMedianSpec (l : List ℚ) : ℚ := (sortAsc l).getD ((l.length - 1) / 2) 0

/-- Per-column completeness of the Data Quality Indicators (part_008 lines
127-128): `(nonNullCount / data.length) * 100`.  For an empty dataset JS
divides `0/0`, rendering NaN; the model returns `none` in that case. -/
def completenessPct (data : List Row) (col : String) : Option ℚ :=
  if data.length = 0 then none
  else some (((data.filter (fun r => (Row.get r col).isPresent)).length : ℚ)
    / (data.length : ℚ) * 100)

/-- Modelled from the spec: the Data Quality Evaluator's issue rules (§4.2)
live in the Flask backend, which is not part of the sources under
verification; this follows the spec's words.  Rule order is (1) per-column
high missing rate (`missingPct > 50`), (2) per-column constant column
(exactly one distinct non-missing value and more than one row), (3) one
full-row duplicate issue.  Completeness for zero rows is 0 per §4.2, so
`missingPct` is 0 there. -/
def qualityIssuesSpec (data : List Row) (cols : List String) : List String :=
  let total := data.length
  let nonMissing := fun c => (data.filter (fun r => (Row.get r c).isNonMissingSpec)).length
  let missingPct : String → ℚ := fun c =>
    if total = 0 then 0 else 100 - ((nonMissing c : ℚ) / (total : ℚ)) * 100
  let rule1 := (cols.filter (fun c => 50 < missingPct c)).map
    (fun c => "High missing rate: " ++ c)
  let rule2 := (cols.filter (fun c =>
    ((data.filterMap (fun r =>
      if (Row.get r c).isNonMissingSpec then some (Row.get r c) else none)).dedup.length = 1)
    ∧ 1 < total)).map (fun c => "Constant column: " ++ c)
  let rule3 := if data.dedup.length < data.length
    then ["Duplicate rows: " ++ toString (data.length - data.dedup.length)] else []
  rule1 ++ rule2 ++ rule3

/-! ## Chart data transformer (src/frontend/src/components/DataVisualizer.jsx) -/

/-- A JS `Map` key as used by the aggregation loops: a raw string, a raw
number, `null`, or `undefined` (JS Map distinguishes all of these). -/
inductive JKey where
  | str : String → JKey
  | num : ℚ → JKey
  | jnull : JKey
  | jundef : JKey
deriving DecidableEq

/-- The pie aggregation key (line 181): `rawKey ?? 'N/A'` — `null` and
`undefined` both collapse to the string `'N/A'`; a string cell keys by its
text, a numeric cell by its number.  (This is the non-binned category path;
the binned path replaces the key by a bin label and is covered by the
key-function-generic theorems.) -/
def pieKeyOf : Cell → JKey
  | .null => .str "N/A"
  | .undef => .str "N/A"
  | .strVal s _ => .str s
  | .num q => .num q

/-- The bar aggregation key (line 236): `row[categoryCol]` used raw — `null`
and `undefined` remain distinct Map keys. -/
def barKeyOf : Cell → JKey
  | .null => .jnull
  | .undef => .jundef
  | .strVal s _ => .str s
  | .num q => .num q

/-- One aggregation step: create the group at the end on first sight
(`if (!aggregated.has(key)) aggregated.set(key, {value: 0})`), then add the
contribution to it (`aggregated.get(key).value += v`).  JS Maps preserve
insertion order, as the association list does. -/
def bumpKey : List (JKey × ℚ) → JKey → ℚ → List (JKey × ℚ)
  | [], k, v => [(k, v)]
  | p :: rest, k, v => if p.1 = k then (p.1, p.2 + v) :: rest else p :: bumpKey rest k v

/-- The row loop of both aggregations (pie lines 179-189, bar lines
235-243), generic in the key and contribution functions. -/
def aggregateRows (rows : List Row) (keyOf : Row → JKey) (contrib : Row → ℚ) :
    List (JKey × ℚ) :=
  rows.foldl (fun acc r => bumpKey acc (keyOf r) (contrib r)) []

/-- The numeric contribution of a row (pie lines 184-185, bar lines 240-241):
`isFinite(v) ? v : 0` for `v = Number(row[valueCol])`. -/
def numContrib (valueCol : String) (r : Row) : ℚ := ((Row.get r valueCol).toNum).getD 0

/-- Descending sort by group value, JS `sort((a, b) => b.value - a.value)`
(pie line 191, bar line 246). -/
def sortDescByVal (l : List (JKey × ℚ)) : List (JKey × ℚ) :=
  l.insertionSort (fun a b => b.2 ≤ a.2)

/-- The pie finishing stage (lines 191-198): sort groups descending by value;
with more than 8 groups keep the top 8 and append one synthetic `'Others'`
group holding the summed remainder. -/
def pieSeries (rows : List Row) (keyOf : Row → JKey) (contrib : Row → ℚ) :
    List (JKey × ℚ) :=
  let arr := sortDescByVal (aggregateRows rows keyOf contrib)
  if 8 < arr.length then
    arr.take 8 ++ [(JKey.str "Others", ((arr.drop 8).map (fun p => p.2)).sum)]
  else arr

/-- The pie aggregation for a (category, numeric) spec (sum semantics). -/
def pieAggregate (rows : List Row) (catCol valueCol : String) : List (JKey × ℚ) :=
  aggregateRows rows (fun r => pieKeyOf (Row.get r catCol)) (numContrib valueCol)

/-- `pieComputed.data` for a (category, numeric) spec. -/
def pieComputedCatNum (rows : List Row) (catCol valueCol : String) : List (JKey × ℚ) :=
  pieSeries rows (fun r => pieKeyOf (Row.get r catCol)) (numContrib valueCol)

/-- The bar aggregation for a (category, numeric) spec (lines 234-243, with a
single numeric column). -/
def barAggregate (rows : List Row) (catCol numCol : String) : List (JKey × ℚ) :=
  aggregateRows rows (fun r => barKeyOf (Row.get r catCol)) (numContrib numCol)

/-- `chartData` for a bar (category, numeric) spec (lines 230-248): aggregate,
sort descending by the summed value, keep the first 10 groups — the remainder
is dropped with no `'Others'` group. -/
def barSeries (rows : List Row) (catCol numCol : String) : List (JKey × ℚ) :=
  (sortDescByVal (barAggregate rows catCol numCol)).take 10

/-! ## Column classification and chart recommendation (DataVisualizer.jsx) -/

/-- `columnTypes[col]` — lookup in the backend-supplied column-type mapping. -/
def lookupType (columnTypes : List (String × String)) (col : String) : Option String :=
  (columnTypes.find? (fun p => p.1 = col)).map (fun p => p.2)

/-- `isNumericCol` (lines 134-140): a falsy column name is not numeric; a
column typed `'number'` is numeric; otherwise the column is numeric when at
least `min(5, data.length)` of its values among the first 50 rows parse as
finite numbers. -/
def isNumericCol (columnTypes : List (String × String)) (data : List Row)
    (col : String) : Bool :=
  if col = "" then false
  else if lookupType columnTypes col = some "number" then true
  else min 5 data.length ≤
    (((data.take 50).map (fun r => (Row.get r col).toNum)).filterMap id).length

/-- Modelled from the spec: the 90%-of-a-bounded-sample numeric test the spec
attributes to the Column Classifier (§4.1), whose backend implementation is
not among the sources.  Sample: the non-missing entries of the first 50 rows;
the column passes when the sample holds at least 5 values and at least 90% of
them parse as finite numbers. -/
def specNumeric90 (data : List Row) (col : String) : Bool :=
  let sample := ((data.take 50).map (fun r => Row.get r col)).filter Cell.isNonMissingSpec
  5 ≤ sample.length ∧
    90 * sample.length ≤ 100 * (sample.filter (fun c => c.toNum.isSome)).length

/-- The three chart types of the visualizer. -/
inductive ChartType where
  | bar : ChartType
  | scatter : ChartType
  | pie : ChartType
deriving DecidableEq

/-- `isNumeric` inside `DataVisualizer` (line 418):
`col === '__index__' || columnTypes[col] === 'number'`. -/
def isNumericSel (columnTypes : List (String × String)) (col : String) : Bool :=
  col = "__index__" ∨ lookupType columnTypes col = some "number"

/-- `canRenderSelected` (lines 419-434): the render-validity check of the
current selection for the active chart type. -/
def canRenderSelected (columnTypes : List (String × String)) (ty : ChartType)
    (sel : List String) : Bool :=
  match ty with
  | .bar =>
    if sel.length = 1 then isNumericSel columnTypes (sel.headD "")
    else if 2 ≤ sel.length then
      (lookupType columnTypes (sel.headD "") ≠ some "number")
        ∧ (sel.drop 1).any (isNumericSel columnTypes)
    else false
  | .scatter =>
    2 ≤ sel.length ∧ isNumericSel columnTypes (sel.headD "")
      ∧ isNumericSel columnTypes ((sel.drop 1).headD "")
  | .pie => 1 ≤ sel.length

/-- The ordered `i < j` pairs of a list, as the scatter recommendation loops
build them (lines 477-483). -/
def pairsOf : List String → List (List String)
  | [] => []
  | a :: rest => rest.map (fun b => [a, b]) ++ pairsOf rest

/-- `recommendedByType` (lines 469-500), keeping only the column lists of the
recommendations (their labels play no role in selection): bar pairs each
categorical with each numeric column, falling back to single numeric columns;
scatter takes numeric pairs, falling back to numeric-vs-`'__index__'` when
exactly one numeric column exists; pie offers per-category count plus one
sum-recommendation per numeric column, falling back to single (binned)
numeric columns.  Each list is capped at 12. -/
def recommendedByType (catCols numCols : List String) (ty : ChartType) :
    List (List String) :=
  match ty with
  | .bar =>
    let base := catCols.flatMap (fun c => numCols.map (fun n => [c, n]))
    (if base.isEmpty then numCols.map (fun n => [n]) else base).take 12
  | .scatter =>
    let base := pairsOf numCols
    (if base.isEmpty ∧ numCols.length = 1
      then [[numCols.headD "", "__index__"]] else base).take 12
  | .pie =>
    let base := catCols.flatMap (fun c => [c] :: numCols.map (fun n => [c, n]))
    (if base.isEmpty then numCols.map (fun n => [n]) else base).take 12

/-- The auto-select effect (lines 503-522) as a pure reconciliation: when the
recommendation list for the active type is non-empty and the selection is
empty, fails `canRenderSelected`, or does not literally equal one of the
recommendations, the first recommendation replaces it; otherwise the
selection stands. -/
def reconcileSelection (columnTypes : List (String × String)) (ty : ChartType)
    (catCols numCols : List String) (sel : List String) : List String :=
  match recommendedByType catCols numCols ty with
  | [] => sel
  | t :: rest =>
    if sel.isEmpty ∨ canRenderSelected columnTypes ty sel = false
        ∨ sel ∉ t :: rest
    then t else sel

/-! ## Aggregation infrastructure lemmas -/

/-- First-match lookup in an aggregation association list. -/
def aggLookup : List (JKey × ℚ) → JKey → Option ℚ
  | [], _ => none
  | p :: rest, k => if p.1 = k then some p.2 else aggLookup rest k

/-- The total contribution of the rows whose key is `k`. -/
def groupTotal (rows : List Row) (keyOf : Row → JKey) (contrib : Row → ℚ)
    (k : JKey) : ℚ :=
  ((rows.filter (fun r => keyOf r = k)).map contrib).sum

theorem bumpKey_sum (l : List (JKey × ℚ)) (k : JKey) (v : ℚ) :
    ((bumpKey l k v).map (fun p => p.2)).sum = (l.map (fun p => p.2)).sum + v := by
  induction l with
  | nil => simp [bumpKey]
  | cons p rest ih =>
    by_cases h : p.1 = k
    · simp [bumpKey, h]; ring
    · simp [bumpKey, h, ih]; ring

theorem aggLookup_bumpKey_self (l : List (JKey × ℚ)) (k : JKey) (v : ℚ) :
    aggLookup (bumpKey l k v) k = some ((aggLookup l k).getD 0 + v) := by
  induction l with
  | nil => simp [bumpKey, aggLookup]
  | cons p rest ih =>
    by_cases h : p.1 = k
    · simp [bumpKey, h, aggLookup]
    · simp [bumpKey, h, aggLookup, ih]

theorem aggLookup_bumpKey_ne (l : List (JKey × ℚ)) {k k' : JKey} (v : ℚ)
    (h : k' ≠ k) : aggLookup (bumpKey l k v) k' = aggLookup l k' := by
  induction l with
  | nil => simp [bumpKey, aggLookup, Ne.symm h]
  | cons p rest ih =>
    by_cases hp : p.1 = k
    · simp [bumpKey, hp, aggLookup, Ne.symm h, h]
    · by_cases hp' : p.1 = k'
      · simp [bumpKey, hp, aggLookup, hp', h]
      · simp [bumpKey, hp, aggLookup, hp', ih]

theorem aggLookup_isSome_iff (l : List (JKey × ℚ)) (k : JKey) :
    (aggLookup l k).isSome = true ↔ k ∈ l.map Prod.fst := by
  induction l with
  | nil => simp [aggLookup]
  | cons p rest ih =>
    by_cases h : p.1 = k
    · simp [aggLookup, h]
    · have h' : ¬ k = p.1 := fun hx => h hx.symm
      simp [aggLookup, h, ih, h']

theorem aggLookup_foldl_bump (rows : List Row) (keyOf : Row → JKey)
    (contrib : Row → ℚ) :
    ∀ (acc : List (JKey × ℚ)) (k : JKey),
      aggLookup (rows.foldl (fun a r => bumpKey a (keyOf r) (contrib r)) acc) k =
        match aggLookup acc k with
        | some v => some (v + groupTotal rows keyOf contrib k)
        | none => if rows.any (fun r => keyOf r = k)
            then some (groupTotal rows keyOf contrib k) else none := by
  induction rows with
  | nil =>
    intro acc k
    cases h : aggLookup acc k <;> simp [groupTotal, h]
  | cons r rest ih =>
    intro acc k
    rw [List.foldl_cons, ih]
    by_cases hk : keyOf r = k
    · subst hk
      rw [aggLookup_bumpKey_self]
      cases h : aggLookup acc (keyOf r) <;>
        simp [h, groupTotal, List.filter_cons, add_assoc]
    · rw [aggLookup_bumpKey_ne _ _ (fun hx => hk hx.symm)]
      cases h : aggLookup acc k <;>
        simp [h, groupTotal, List.filter_cons, hk]

theorem aggLookup_aggregateRows (rows : List Row) (keyOf : Row → JKey)
    (contrib : Row → ℚ) (k : JKey) :
    aggLookup (aggregateRows rows keyOf contrib) k =
      if rows.any (fun r => keyOf r = k)
        then some (groupTotal rows keyOf contrib k) else none := by
  rw [aggregateRows, aggLookup_foldl_bump]
  simp [aggLookup]

theorem aggregateRows_sum (rows : List Row) (keyOf : Row → JKey)
    (contrib : Row → ℚ) :
    ((aggregateRows rows keyOf contrib).map (fun p => p.2)).sum =
      (rows.map contrib).sum := by
  rw [aggregateRows]
  have h : ∀ (acc : List (JKey × ℚ)),
      ((rows.foldl (fun a r => bumpKey a (keyOf r) (contrib r)) acc).map
        (fun p => p.2)).sum
        = (acc.map (fun p => p.2)).sum + (rows.map contrib).sum := by
    induction rows with
    | nil => intro acc; simp
    | cons r rest ih =>
      intro acc
      rw [List.foldl_cons, ih, bumpKey_sum]
      simp; ring
  simpa using h []

theorem keys_aggregateRows_subset (rows : List Row) (keyOf : Row → JKey)
    (contrib : Row → ℚ) :
    (aggregateRows rows keyOf contrib).map Prod.fst ⊆ rows.map keyOf := by
  intro k hk
  have hs : (aggLookup (aggregateRows rows keyOf contrib) k).isSome = true :=
    (aggLookup_isSome_iff _ _).mpr hk
  rw [aggLookup_aggregateRows] at hs
  by_cases h : rows.any (fun r => keyOf r = k)
  · rcases List.any_eq_true.mp h with ⟨r, hr, hkr⟩
    exact List.mem_map.mpr ⟨r, hr, of_decide_eq_true hkr⟩
  · simp [h] at hs

theorem mem_keys_aggregateRows {rows : List Row} {r : Row} (keyOf : Row → JKey)
    (contrib : Row → ℚ) (hr : r ∈ rows) :
    keyOf r ∈ (aggregateRows rows keyOf contrib).map Prod.fst := by
  rw [← aggLookup_isSome_iff, aggLookup_aggregateRows]
  have : rows.any (fun r' => keyOf r' = keyOf r) = true :=
    List.any_eq_true.mpr ⟨r, hr, by simp⟩
  simp [this]

/-! ## Sorting lemmas -/

instance : IsTotal (JKey × ℚ) (fun a b => b.2 ≤ a.2) :=
  ⟨fun a b => le_total b.2 a.2⟩

instance : IsTrans (JKey × ℚ) (fun a b => b.2 ≤ a.2) :=
  ⟨fun _ _ _ hab hbc => le_trans hbc hab⟩

theorem sortDescByVal_sorted (l : List (JKey × ℚ)) :
    List.Sorted (fun a b => b.2 ≤ a.2) (sortDescByVal l) :=
  List.sorted_insertionSort _ l

theorem sortDescByVal_perm (l : List (JKey × ℚ)) : (sortDescByVal l).Perm l :=
  List.perm_insertionSort _ l

theorem sortDescByVal_sum (l : List (JKey × ℚ)) :
    ((sortDescByVal l).map (fun p => p.2)).sum = (l.map (fun p => p.2)).sum :=
  ((sortDescByVal_perm l).map _).sum_eq

/-! ## Variance degeneracy lemmas -/

theorem sumSq_eq_zero_imp (l : List ℚ) (m : ℚ)
    (h : (l.map (fun x => (x - m) ^ 2)).sum = 0) : ∀ x ∈ l, x = m := by
  induction l with
  | nil => simp
  | cons a rest ih =>
    rw [List.map_cons, List.sum_cons] at h
    have hrest : 0 ≤ (rest.map (fun x => (x - m) ^ 2)).sum := by
      apply List.sum_nonneg
      intro x hx
      rcases List.mem_map.mp hx with ⟨y, _, rfl⟩
      positivity
    have ha : 0 ≤ (a - m) ^ 2 := sq_nonneg _
    have h1 : (a - m) ^ 2 = 0 := by linarith
    have h2 : (rest.map (fun x => (x - m) ^ 2)).sum = 0 := by linarith
    intro x hx
    rcases List.mem_cons.mp hx with rfl | hx'
    · have := pow_eq_zero_iff (n := 2) (by norm_num) |>.mp h1
      linarith [sub_eq_zero.mp this]
    · exact ih h2 x hx'

theorem sumSq_short (l : List ℚ) (h : l.length < 2) :
    (l.map (fun x => (x - qmean l) ^ 2)).sum = 0 := by
  match l with
  | [] => simp
  | [x] => simp [qmean]
  | x :: y :: rest => exact absurd h (by simp)

theorem colVariance_short (data : List Row) (col : String)
    (h : (validValues data col).length < 2) : colVariance data col = 0 :=
  sumSq_short _ h

/-- Unfolding helper: one row's effect on a column's valid-value list. -/
theorem validValues_cons (r : Row) (rest : List Row) (col : String) :
    validValues (r :: rest) col =
      match (Row.get r col).toNum with
      | some q => q :: validValues rest col
      | none => validValues rest col := by
  cases h : (Row.get r col).toNum <;> simp [validValues, h]

theorem pairedValues_cons (r : Row) (rest : List Row) (c1 c2 : String) :
    pairedValues (r :: rest) c1 c2 =
      match (Row.get r c1).toNum, (Row.get r c2).toNum with
      | some x, some y => (x, y) :: pairedValues rest c1 c2
      | some _, none => pairedValues rest c1 c2
      | none, _ => pairedValues rest c1 c2 := by
  cases h1 : (Row.get r c1).toNum <;> cases h2 : (Row.get r c2).toNum <;>
    simp [pairedValues, h1, h2]

theorem covar_comm (data : List Row) (a b : String) :
    covar data a b = covar data b a := by
  rw [covar, covar, ← List.zip_swap (validValues data a) (validValues data b),
    List.map_map]
  refine congrArg List.sum (List.map_congr_left ?_)
  intro p _
  simp only [Function.comp_apply, Prod.fst_swap, Prod.snd_swap]
  ring

/-! ## Claim C1 -/

/-- C1 counterexample: on the spec's own scenario — column `a` constant
`[1,1,1]` (zero variance), column `b` equal `[2,3,4]` — the code reaches the
Pearson branch with covariance `0` and variance product `0`, so the rendered
coefficient is `0 / Math.sqrt(0) = NaN`, not the claimed exact `0`. -/
theorem c1_zero_variance_yields_nan_counterexample :
    corrEntry dataZeroVar "a" "b" = CorrEntry.pearson 0 0
      ∧ (corrEntry dataZeroVar "a" "b").isNaN = true
      ∧ corrEntry dataZeroVar "a" "b" ≠ CorrEntry.zero := by
  have ha : validValues dataZeroVar "a" = [1, 1, 1] := by
    simp [validValues, dataZeroVar, Row.get, Cell.toNum]
  have hb : validValues dataZeroVar "b" = [2, 3, 4] := by
    simp [validValues, dataZeroVar, Row.get, Cell.toNum]
  have h : corrEntry dataZeroVar "a" "b" = CorrEntry.pearson 0 0 := by
    rw [corrEntry, if_neg (by decide), covar, colVariance, colVariance, ha, hb]
    norm_num [qmean]
  refine ⟨h, by rw [h]; simp [CorrEntry.isNaN], by rw [h]; simp⟩

/-- C1 amended: for distinct columns whose independently filtered value lists
have equal length, a zero variance product — which fewer than 2 samples
forces — makes the matrix entry NaN (`0 / Math.sqrt(0)`); the literal `0`
fallback is used only when the two lists' lengths differ. -/
theorem c1_degenerate_pair_entry_is_nan (data : List Row) (c1 c2 : String)
    (hne : c1 ≠ c2)
    (hlen : (validValues data c1).length = (validValues data c2).length)
    (hdeg : colVariance data c1 * colVariance data c2 = 0
      ∨ (validValues data c1).length < 2) :
    (corrEntry data c1 c2).isNaN = true := by
  have hvar : colVariance data c1 * colVariance data c2 = 0 := by
    rcases hdeg with h | h
    · exact h
    · rw [colVariance_short data c1 h, zero_mul]
  have hcov : covar data c1 c2 = 0 := by
    rcases mul_eq_zero.mp hvar with h1 | h2
    · apply List.sum_eq_zero
      intro t ht
      rcases List.mem_map.mp ht with ⟨⟨x, y⟩, hp, rfl⟩
      have hx : x ∈ validValues data c1 := (List.of_mem_zip hp).1
      rw [sumSq_eq_zero_imp _ _ h1 x hx, sub_self, zero_mul]
    · apply List.sum_eq_zero
      intro t ht
      rcases List.mem_map.mp ht with ⟨⟨x, y⟩, hp, rfl⟩
      have hy : y ∈ validValues data c2 := (List.of_mem_zip hp).2
      rw [sumSq_eq_zero_imp _ _ h2 y hy, sub_self, mul_zero]
  rw [corrEntry, if_neg hne, if_neg (fun hc => hc hlen)]
  simp [CorrEntry.isNaN, hcov, hvar]

/-- C1 witness: the amended theorem applied to the zero-variance scenario. -/
theorem c1_degenerate_pair_entry_is_nan_witness :
    (corrEntry dataZeroVar "a" "b").isNaN = true := by
  have ha : validValues dataZeroVar "a" = [1, 1, 1] := by
    simp [validValues, dataZeroVar, Row.get, Cell.toNum]
  have hb : validValues dataZeroVar "b" = [2, 3, 4] := by
    simp [validValues, dataZeroVar, Row.get, Cell.toNum]
  have hv : colVariance dataZeroVar "a" = 0 := by
    rw [colVariance, ha]; norm_num [qmean]
  exact c1_degenerate_pair_entry_is_nan dataZeroVar "a" "b" (by decide)
    (by rw [ha, hb]; rfl) (Or.inl (by rw [hv, zero_mul]))

/-! ## Claim C2 -/

/-- Dataset refuting row-wise pairwise deletion: row 1 has `a` valid only,
row 2 has `b` valid only, row 3 has both valid. -/
def dataMisaligned : List Row :=
  [[("a", Cell.num 1), ("b", Cell.strVal "x" none)],
   [("a", Cell.strVal "x" none), ("b", Cell.num 2)],
   [("a", Cell.num 2), ("b", Cell.num 3)]]

/-- C2 counterexample: the code pairs `a`'s valid values `[1,2]` with `b`'s
valid values `[2,3]` positionally, mixing values of different rows — only one
row has both columns valid, so row-wise pairwise deletion (the spec's rule,
embodied by `corrSpec`) would use a single paired sample and return `0`,
while the code computes a Pearson entry from the misaligned lists. -/
theorem c2_columnwise_filtering_counterexample :
    (validValues dataMisaligned "a").zip (validValues dataMisaligned "b")
        ≠ pairedValues dataMisaligned "a" "b"
      ∧ corrEntry dataMisaligned "a" "b" = CorrEntry.pearson (1/2) (1/4)
      ∧ corrSpec dataMisaligned "a" "b" = CorrEntry.zero := by
  have ha : validValues dataMisaligned "a" = [1, 2] := by
    simp [validValues, dataMisaligned, Row.get, Cell.toNum]
  have hb : validValues dataMisaligned "b" = [2, 3] := by
    simp [validValues, dataMisaligned, Row.get, Cell.toNum]
  have hp : pairedValues dataMisaligned "a" "b" = [(2, 3)] := by
    simp [pairedValues, dataMisaligned, Row.get, Cell.toNum]
  refine ⟨by rw [ha, hb, hp]; decide, ?_, ?_⟩
  · rw [corrEntry, if_neg (by decide), covar, colVariance, colVariance, ha, hb]
    norm_num [qmean]
  · simp [corrSpec, hp]

/-- C2 amended: each column's valid values are collected independently in row
order and paired by position; only when both columns parse in every row does
this positional pairing coincide with row-wise pairwise deletion. -/
theorem c2_pairing_rowwise_iff_total (data : List Row) (c1 c2 : String)
    (h : ∀ r ∈ data, ((Row.get r c1).toNum).isSome ∧ ((Row.get r c2).toNum).isSome) :
    (validValues data c1).zip (validValues data c2) = pairedValues data c1 c2 := by
  induction data with
  | nil => simp [validValues, pairedValues]
  | cons r rest ih =>
    obtain ⟨h1, h2⟩ := h r (List.mem_cons_self r rest)
    rcases Option.isSome_iff_exists.mp h1 with ⟨x, hx⟩
    rcases Option.isSome_iff_exists.mp h2 with ⟨y, hy⟩
    rw [validValues_cons, validValues_cons, pairedValues_cons, hx, hy]
    simpa using ih (fun r' hr' => h r' (List.mem_cons_of_mem _ hr'))

/-- C2 witness: on the all-valid sub-dataset the positional pairing is the
row-wise pairing. -/
theorem c2_pairing_rowwise_iff_total_witness :
    (validValues [[("a", Cell.num 2), ("b", Cell.num 3)]] "a").zip
        (validValues [[("a", Cell.num 2), ("b", Cell.num 3)]] "b")
      = pairedValues [[("a", Cell.num 2), ("b", Cell.num 3)]] "a" "b" :=
  c2_pairing_rowwise_iff_total _ "a" "b" (by
    intro r hr
    rcases List.mem_singleton.mp hr with rfl
    simp [Row.get, Cell.toNum])

/-! ## Claim C3 -/

/-- C3: the correlation matrix is symmetric — the entry for `(a, b)` equals
the entry for `(b, a)` for every column pair — and every diagonal entry is
the literal `1`, whatever the sample size. -/
theorem c3_corr_matrix_symmetric_diag_one (data : List Row) (a b : String) :
    corrEntry data a b = corrEntry data b a
      ∧ corrEntry data a a = CorrEntry.one := by
  constructor
  · by_cases hab : a = b
    · rw [hab]
    · rw [corrEntry, corrEntry, if_neg hab, if_neg (Ne.symm hab)]
      by_cases hlen : (validValues data a).length = (validValues data b).length
      · rw [if_neg (fun hc => hc hlen), if_neg (fun hc => hc hlen.symm),
          covar_comm, mul_comm]
      · rw [if_pos hlen, if_pos (fun hc => hlen hc.symm)]
  · rw [corrEntry, if_pos rfl]

/-! ## Claim C5 -/

/-- C5: for every dataset and pie spec (any key function — raw category or
bin label — and any contribution — summed numeric column or count), the
aggregated groups are sorted descending by value; with more than 8 groups
exactly the top 8 are kept plus one synthetic `'Others'` group holding the
sum of the dropped groups; and the emitted series values always sum to the
direct aggregation total over the source rows. -/
theorem c5_pie_sort_top8_others_conserves_total (rows : List Row)
    (keyOf : Row → JKey) (contrib : Row → ℚ) :
    List.Sorted (fun a b => b.2 ≤ a.2)
        (sortDescByVal (aggregateRows rows keyOf contrib))
      ∧ pieSeries rows keyOf contrib =
        (if 8 < (sortDescByVal (aggregateRows rows keyOf contrib)).length then
          (sortDescByVal (aggregateRows rows keyOf contrib)).take 8
            ++ [(JKey.str "Others",
              (((sortDescByVal (aggregateRows rows keyOf contrib)).drop 8).map
                (fun p => p.2)).sum)]
        else sortDescByVal (aggregateRows rows keyOf contrib))
      ∧ ((pieSeries rows keyOf contrib).map (fun p => p.2)).sum
        = (rows.map contrib).sum := by
  refine ⟨sortDescByVal_sorted _, rfl, ?_⟩
  have hsum : ((sortDescByVal (aggregateRows rows keyOf contrib)).map
      (fun p => p.2)).sum = (rows.map contrib).sum := by
    rw [sortDescByVal_sum, aggregateRows_sum]
  rw [pieSeries]
  by_cases h : 8 < (sortDescByVal (aggregateRows rows keyOf contrib)).length
  · simp only [h, if_pos, List.map_append, List.sum_append, List.map_cons,
      List.map_nil, List.sum_cons, List.sum_nil, ← List.map_take, ← List.map_drop] at *
    rw [← hsum, ← List.sum_take_add_sum_drop
      ((sortDescByVal (aggregateRows rows keyOf contrib)).map (fun p => p.2)) 8,
      List.map_take, List.map_drop]
    ring
  · simpa [h] using hsum

/-! ## Claim C6 -/

/-- The spec's bar scenario dataset:
`[{region:"N",rev:10},{region:"S",rev:20},{region:"N",rev:5}]`. -/
def dataScenario : List Row :=
  [[("region", Cell.strVal "N" none), ("rev", Cell.num 10)],
   [("region", Cell.strVal "S" none), ("rev", Cell.num 20)],
   [("region", Cell.strVal "N" none), ("rev", Cell.num 5)]]

/-- C6: the bar (category, numeric) transformer emits at most 10 groups,
sorted descending by summed value, every emitted key coming from some row
(none synthesized — the remainder beyond 10 is dropped, not collapsed); and
on the spec's scenario it yields `[(S,20),(N,15)]`. -/
theorem c6_bar_groups_top10_sorted_dropped :
    (∀ (rows : List Row) (c n : String),
      (barSeries rows c n).length ≤ 10
        ∧ List.Sorted (fun a b => b.2 ≤ a.2) (barSeries rows c n)
        ∧ (barSeries rows c n).map Prod.fst
          ⊆ rows.map (fun r => barKeyOf (Row.get r c)))
      ∧ barSeries dataScenario "region" "rev"
        = [(JKey.str "S", 20), (JKey.str "N", 15)] := by
  constructor
  · intro rows c n
    refine ⟨?_, ?_, ?_⟩
    · rw [barSeries]
      exact List.length_take_le 10 _
    · exact List.Pairwise.sublist (List.take_sublist _ _) (sortDescByVal_sorted _)
    · intro k hk
      have h1 : k ∈ (sortDescByVal (barAggregate rows c n)).map Prod.fst :=
        (List.Sublist.map Prod.fst (List.take_sublist _ _)).subset hk
      have h2 : k ∈ (barAggregate rows c n).map Prod.fst :=
        ((sortDescByVal_perm _).map Prod.fst).subset h1
      exact keys_aggregateRows_subset rows _ _ h2
  · have hagg : barAggregate dataScenario "region" "rev"
        = [(JKey.str "N", 10 + 5), (JKey.str "S", 20)] := by rfl
    rw [barSeries, hagg]
    norm_num
    rfl

/-- C6 witness: the general bounds applied to the scenario dataset. -/
theorem c6_bar_groups_top10_sorted_dropped_witness :
    (barSeries dataScenario "region" "rev").length ≤ 10
      ∧ (barSeries dataScenario "region" "rev").map Prod.fst
        ⊆ dataScenario.map (fun r => barKeyOf (Row.get r "region")) :=
  ⟨(c6_bar_groups_top10_sorted_dropped.1 dataScenario "region" "rev").1,
   (c6_bar_groups_top10_sorted_dropped.1 dataScenario "region" "rev").2.2⟩

/-! ## Claim C10 -/

/-- C10: in both the bar and the pie (category, numeric) aggregations, a row
whose numeric cell does not parse to a finite number is not skipped: it
contributes exactly `0`, its category key still appears among the aggregated
groups, and each group's value is the sum of the contributions of all rows
with that key (so the invalid row's term in that sum is `0`). -/
theorem c10_invalid_numeric_row_kept_zero (rows : List Row) (r : Row)
    (catCol valCol : String) (hr : r ∈ rows)
    (hv : (Row.get r valCol).toNum = none) :
    numContrib valCol r = 0
      ∧ barKeyOf (Row.get r catCol) ∈ (barAggregate rows catCol valCol).map Prod.fst
      ∧ pieKeyOf (Row.get r catCol) ∈ (pieAggregate rows catCol valCol).map Prod.fst
      ∧ aggLookup (barAggregate rows catCol valCol) (barKeyOf (Row.get r catCol))
        = some (groupTotal rows (fun x => barKeyOf (Row.get x catCol))
            (numContrib valCol) (barKeyOf (Row.get r catCol)))
      ∧ aggLookup (pieAggregate rows catCol valCol) (pieKeyOf (Row.get r catCol))
        = some (groupTotal rows (fun x => pieKeyOf (Row.get x catCol))
            (numContrib valCol) (pieKeyOf (Row.get r catCol))) := by
  have hbar : rows.any (fun x => barKeyOf (Row.get x catCol)
      = barKeyOf (Row.get r catCol)) = true :=
    List.any_eq_true.mpr ⟨r, hr, by simp⟩
  have hpie : rows.any (fun x => pieKeyOf (Row.get x catCol)
      = pieKeyOf (Row.get r catCol)) = true :=
    List.any_eq_true.mpr ⟨r, hr, by simp⟩
  refine ⟨by simp [numContrib, hv], mem_keys_aggregateRows _ _ hr,
    mem_keys_aggregateRows _ _ hr, ?_, ?_⟩
  · rw [barAggregate, aggLookup_aggregateRows, if_pos hbar]
  · rw [pieAggregate, aggLookup_aggregateRows, if_pos hpie]

/-- A one-row dataset whose numeric column does not parse. -/
def dataBadVal : List Row := [[("cat", Cell.strVal "A" none), ("val", Cell.strVal "oops" none)]]

/-- C10 witness: the theorem at the concrete unparseable row. -/
theorem c10_invalid_numeric_row_kept_zero_witness :
    numContrib "val" [("cat", Cell.strVal "A" none), ("val", Cell.strVal "oops" none)] = 0
      ∧ barKeyOf (Row.get [("cat", Cell.strVal "A" none), ("val", Cell.strVal "oops" none)] "cat")
        ∈ (barAggregate dataBadVal "cat" "val").map Prod.fst := by
  have h := c10_invalid_numeric_row_kept_zero dataBadVal
    [("cat", Cell.strVal "A" none), ("val", Cell.strVal "oops" none)] "cat" "val"
    (by simp [dataBadVal]) (by simp [Row.get, Cell.toNum])
  exact ⟨h.1, h.2.1⟩

/-! ## Claim C4 -/

theorem sortAsc_sorted (l : List ℚ) : List.Sorted (· ≤ ·) (sortAsc l) :=
  List.sorted_insertionSort _ l

theorem sortAsc_length (l : List ℚ) : (sortAsc l).length = l.length :=
  (List.perm_insertionSort _ l).length_eq

theorem sortAsc_getD_mono (l : List ℚ) {i j : ℕ} (hij : i < j)
    (hj : j < l.length) : (sortAsc l).getD i 0 ≤ (sortAsc l).getD j 0 := by
  have hj' : j < (sortAsc l).length := by rw [sortAsc_length]; exact hj
  have hi' : i < (sortAsc l).length := lt_trans hij hj'
  rw [List.getD_eq_getElem _ _ hi', List.getD_eq_getElem _ _ hj']
  exact (sortAsc_sorted l).rel_get_of_lt (a := ⟨i, hi'⟩) (b := ⟨j, hj'⟩) hij

theorem sortAsc_getD_mem (l : List ℚ) {i : ℕ} (hi : i < l.length) :
    (sortAsc l).getD i 0 ∈ l := by
  have hi' : i < (sortAsc l).length := by rw [sortAsc_length]; exact hi
  rw [List.getD_eq_getElem _ _ hi']
  exact (List.perm_insertionSort _ l).subset (List.getElem_mem hi')

/-- Four rows with an even-length numeric column `[1,2,3,4]`. -/
def dataEven : List Row :=
  [[("x", Cell.num 1)], [("x", Cell.num 2)], [("x", Cell.num 3)], [("x", Cell.num 4)]]

/-- C4 counterexample: on the even-length column `[1,2,3,4]` the code's
median is `sorted[floor(4/2)] = sorted[2] = 3`, the **upper** of the two
middle elements, while the claimed lower-of-two convention gives `2`. -/
theorem c4_median_upper_middle_counterexample :
    (getColumnStats dataEven "x").map (fun s => s.median) = some 3
      ∧ lowerMedianSpec (validValues dataEven "x") = 2
      ∧ (3 : ℚ) ≠ 2 := by
  have hv : validValues dataEven "x" = [1, 2, 3, 4] := by
    simp [validValues, dataEven, Row.get, Cell.toNum]
  have hs : sortAsc [1, 2, 3, 4] = ([1, 2, 3, 4] : List ℚ) := by rfl
  refine ⟨?_, ?_, by norm_num⟩
  · simp [getColumnStats, hv, hs]
  · simp [lowerMedianSpec, hv, hs]

/-- C4 amended: for a column with at least one valid numeric value, the
median is the sorted value at index `⌊n/2⌋` — for an odd count `n = 2k+1`
the exact middle, and for an even count `n = 2k` the **upper** of the two
middle elements, i.e. the larger of `sorted[k-1]` and `sorted[k]` — and
Q1/Q3 are the sorted values at the floored positions `⌊n/4⌋` and `⌊3n/4⌋`;
all three indices are in range, so each statistic is an element of the
column's valid values. -/
theorem c4_median_q1_q3_index_convention (data : List Row) (col : String)
    (s : ColStats) (hs : getColumnStats data col = some s) :
    s.median = (sortAsc (validValues data col)).getD
        ((validValues data col).length / 2) 0
      ∧ s.q1 = (sortAsc (validValues data col)).getD
        ((validValues data col).length / 4) 0
      ∧ s.q3 = (sortAsc (validValues data col)).getD
        (3 * (validValues data col).length / 4) 0
      ∧ s.median ∈ validValues data col
      ∧ s.q1 ∈ validValues data col
      ∧ s.q3 ∈ validValues data col
      ∧ (∀ k, (validValues data col).length = 2 * k + 1 →
        s.median = (sortAsc (validValues data col)).getD k 0)
      ∧ ∀ k, (validValues data col).length = 2 * k → 0 < k →
        s.median = max ((sortAsc (validValues data col)).getD (k - 1) 0)
          ((sortAsc (validValues data col)).getD k 0) := by
  rw [getColumnStats] at hs
  by_cases h0 : (validValues data col).length = 0
  · simp [h0] at hs
  · simp only [h0, if_false] at hs
    obtain rfl := Option.some_injective _ hs.symm
    have hpos : 0 < (validValues data col).length := Nat.pos_of_ne_zero h0
    refine ⟨rfl, rfl, rfl,
      sortAsc_getD_mem _ (by omega), sortAsc_getD_mem _ (by omega),
      sortAsc_getD_mem _ (by omega), ?_, ?_⟩
    · intro k hk
      simp only [hk]
      rw [show (2 * k + 1) / 2 = k from by omega]
    · intro k hk hkpos
      have hle : (sortAsc (validValues data col)).getD (k - 1) 0
          ≤ (sortAsc (validValues data col)).getD k 0 := by
        apply sortAsc_getD_mono _ (Nat.sub_lt hkpos Nat.one_pos)
        omega
      simp only [hk]
      rw [show 2 * k / 2 = k from by omega, max_eq_right hle]

/-! ## Claim C7 -/

theorem length_filterMap_id (l : List (Option ℚ)) :
    (l.filterMap id).length = l.countP (fun o => o.isSome) := by
  induction l with
  | nil => rfl
  | cons a rest ih => cases a <;> simp [List.filterMap_cons, List.countP_cons, ih]

/-- Ten rows: the first five hold an unparseable non-missing string, the last
five hold numbers — 50% of the sample parses. -/
def dataHalfNumeric : List Row :=
  [[("x", Cell.strVal "v" none)], [("x", Cell.strVal "v" none)],
   [("x", Cell.strVal "v" none)], [("x", Cell.strVal "v" none)],
   [("x", Cell.strVal "v" none)],
   [("x", Cell.num 1)], [("x", Cell.num 2)], [("x", Cell.num 3)],
   [("x", Cell.num 4)], [("x", Cell.num 5)]]

/-- C7 counterexample: with no declared column type, a 10-row column where
only 5 of 10 non-missing sampled values parse (50%, far below 90%) is still
classified numeric, because the fallback test only asks for an absolute
count of `min(5, rowCount)` parsed values among the first 50 rows. -/
theorem c7_fifty_percent_still_numeric_counterexample :
    isNumericCol [] dataHalfNumeric "x" = true
      ∧ specNumeric90 dataHalfNumeric "x" = false := by decide

/-- C7 amended: a column typed `'number'` is always numeric; otherwise a
non-empty-named column is classified numeric iff at least `min(5, rowCount)`
of its values among the first 50 rows parse as finite numbers — no 90% ratio
is involved. -/
theorem c7_numeric_iff_absolute_count (ct : List (String × String))
    (data : List Row) (col : String) (hcol : col ≠ "") :
    (lookupType ct col = some "number" → isNumericCol ct data col = true)
      ∧ (lookupType ct col ≠ some "number" →
        (isNumericCol ct data col = true ↔ min 5 data.length ≤
          (data.take 50).countP (fun r => ((Row.get r col).toNum).isSome))) := by
  constructor
  · intro h
    simp [isNumericCol, hcol, h]
  · intro h
    rw [isNumericCol, if_neg hcol, if_neg h, length_filterMap_id, List.countP_map]
    have hfun : ((fun o : Option ℚ => o.isSome) ∘ fun r : Row => (Row.get r col).toNum)
        = fun r : Row => ((Row.get r col).toNum).isSome := rfl
    rw [hfun]
    simp

/-- C7 witness: the amended characterization applied to the half-numeric
column (5 parsed values meet the `min(5, 10)` bar). -/
theorem c7_numeric_iff_absolute_count_witness :
    isNumericCol [] dataHalfNumeric "x" = true ↔ min 5 dataHalfNumeric.length ≤
      (dataHalfNumeric.take 50).countP (fun r => ((Row.get r "x").toNum).isSome) :=
  (c7_numeric_iff_absolute_count [] dataHalfNumeric "x" (by decide)).2 (by decide)

/-! ## Claim C8 -/

/-- C8: whenever the recommendation list for the active chart type is
non-empty and the current selection is empty, fails the render-validity
check, or does not literally match one of the recommendations, the
reconciled selection is the first recommendation of that list. -/
theorem c8_invalid_selection_replaced_by_first (ct : List (String × String))
    (ty : ChartType) (catCols numCols : List String) (sel t : List String)
    (rest : List (List String))
    (hrec : recommendedByType catCols numCols ty = t :: rest)
    (hbad : sel = [] ∨ canRenderSelected ct ty sel = false
      ∨ sel ∉ recommendedByType catCols numCols ty) :
    reconcileSelection ct ty catCols numCols sel = t := by
  simp only [reconcileSelection, hrec]
  have hcond : sel.isEmpty = true ∨ canRenderSelected ct ty sel = false
      ∨ sel ∉ t :: rest := by
    rcases hbad with rfl | hb | hb
    · exact Or.inl rfl
    · exact Or.inr (Or.inl hb)
    · exact Or.inr (Or.inr (by rwa [hrec] at hb))
  rw [if_pos hcond]

/-- C8 witness: a selection matching no recommendation is replaced by the
first bar recommendation. -/
theorem c8_invalid_selection_replaced_by_first_witness :
    reconcileSelection [("n1", "number")] ChartType.bar ["c1"] ["n1"] ["bogus"]
      = ["c1", "n1"] :=
  c8_invalid_selection_replaced_by_first [("n1", "number")] ChartType.bar
    ["c1"] ["n1"] ["bogus"] ["c1", "n1"] [] (by rfl)
    (Or.inr (Or.inr (by decide)))

/-! ## Claim C9 -/

/-- C9 counterexample: on a zero-row dataset the correlation memo is indeed
`null` and the spec-modelled issue list is empty, but each per-column
completeness value of StatisticalInsights is the JS NaN
(`(0 / 0) * 100`, here `none`), not `0`. -/
theorem c9_zero_rows_completeness_nan_counterexample :
    correlations ([] : List Row) ["a", "b"] = none
      ∧ completenessPct ([] : List Row) "a" = none
      ∧ completenessPct ([] : List Row) "a" ≠ some 0
      ∧ qualityIssuesSpec ([] : List Row) ["a"] = [] := by
  refine ⟨rfl, rfl, by simp [completenessPct], by decide⟩

/-- C9 amended: for a zero-row dataset no derivation throws (all functions
are total): the correlation result is the distinguishable `none`, the
spec-modelled quality issues list is empty, and every per-column completeness
value is undefined (NaN, modelled `none`) rather than `0`. -/
theorem c9_zero_rows_all_derivations_neutral (numericColumns : List String)
    (col : String) (cols : List String) :
    correlations [] numericColumns = none
      ∧ completenessPct [] col = none
      ∧ qualityIssuesSpec [] cols = [] := by
  refine ⟨by simp [correlations], by simp [completenessPct], ?_⟩
  norm_num [qualityIssuesSpec]

/-- C4 witness: the amended theorem at the `[1,2,3,4]` column, where the
even-count median is `max 2 3 = 3`. -/
theorem c4_median_q1_q3_index_convention_witness :
    ∃ s, getColumnStats dataEven "x" = some s
      ∧ s.median = (sortAsc (validValues dataEven "x")).getD
        ((validValues dataEven "x").length / 2) 0
      ∧ s.median ∈ validValues dataEven "x"
      ∧ s.median = max ((sortAsc (validValues dataEven "x")).getD 1 0)
        ((sortAsc (validValues dataEven "x")).getD 2 0) := by
  have hv : validValues dataEven "x" = [1, 2, 3, 4] := by
    simp [validValues, dataEven, Row.get, Cell.toNum]
  have hsome : ∃ s, getColumnStats dataEven "x" = some s := by
    simp [getColumnStats, hv]
  obtain ⟨s, hs⟩ := hsome
  obtain ⟨hmed, _, _, hmem, _, _, _, hmax⟩ :=
    c4_median_q1_q3_index_convention dataEven "x" s hs
  exact ⟨s, hs, hmed, hmem,
    by simpa [hv] using hmax 2 (by rw [hv]; rfl) (by norm_num)⟩
